import Mathlib

set_option linter.unusedVariables false

/-!
Verification of the `Mutex` class from
`src/plugins/decor/ui/modals/ChangeDecorationModal.tsx` (the async mutex used
by the Decor plugin).  The class keeps a boolean `locked` flag and a FIFO
`queue` of pending `resolve` callbacks; `lock()` either resolves at once or
queues, `unlock()` either hands the lock to the queue head or clears the
flag, and `with(cb)` wraps a callback between `lock()` and `unlock()`.

The embedding represents queued `resolve` callbacks by the identity (a `Nat`)
of the waiting caller, and models the asynchronous behaviour of `with` by
case analysis on how the callback settles.
-/

/-- State of the `Mutex` class: `locked` is the private `locked` field
(initially `false`), `queue` is the private `queue` array holding the queued
waiters in arrival order (the source stores their `resolve` callbacks; we
store the waiting caller's identity). -/
structure Mutex where
  locked : Bool
  queue : List Nat
  deriving DecidableEq

/-- The freshly constructed mutex: `locked = false`, `queue = []`. -/
def Mutex.fresh : Mutex := ⟨false, []⟩

/-- Outcome of a `lock()` call: `granted` is the `Promise.resolve()` branch
(the handle completes immediately); `pending` is the `new Promise` branch
(the handle completes only when a later `unlock()` pops the waiter). -/
inductive LockResult where
  | granted
  | pending
  deriving DecidableEq

/-- Embedding of `Mutex.lock`:
if `this.locked`, push the caller's `resolve` onto `this.queue` and return a
pending promise; otherwise set `this.locked = true` and return a resolved
promise. -/
def Mutex.lock (m : Mutex) (caller : Nat) : Mutex × LockResult :=
  if m.locked then
    ({ m with queue := m.queue ++ [caller] }, .pending)
  else
    ({ m with locked := true }, .granted)

/-- Embedding of `Mutex.unlock`:
if `this.queue.length` is nonzero, `shift()` the first queued `resolve` and
invoke it (returned here as `some w`, the waiter whose handle completes;
the `locked` flag is not touched); otherwise set `this.locked = false` and
complete no waiter (`none`). -/
def Mutex.unlock (m : Mutex) : Mutex × Option Nat :=
  match m.queue with
  | w :: rest => ({ m with queue := rest }, some w)
  | [] => ({ m with locked := false }, none)

/-- How the zero-argument callback handed to `with` behaves when invoked:
it may throw synchronously (`throwEx e`), return a value that is not a
promise (`retValue`), or return a promise that later resolves
(`retPromise .ok`) or rejects (`retPromise (.err e)`).  Error values are
represented by naturals. -/
inductive CbBehavior where
  | throwEx (e : Nat)
  | retValue
  | retPromise (r : Option Nat)
  deriving DecidableEq

/-- How the promise returned by `with` settles: `none` means it is still
pending (the lock was held and the caller is queued), `some .ok` means it
resolved, `some (.err e)` means it rejected with error `e`. -/
inductive Settle where
  | ok
  | err (e : Nat)
  deriving DecidableEq

/-- Abstract events recording the order in which the body of `with`
performs its steps: the `lock()` handle resolving, the invocation of `cb`,
the settling of `cb` (its return for a non-promise, its throw, or the
settling of the promise it returned), an asynchronous microtask boundary
(a `.then` continuation being scheduled), the call to `this.unlock()`, and
the settling of the promise `with` itself returned. -/
inductive WEv where
  | lockAcq
  | cbCall
  | cbSettled
  | microtask
  | unlockCall
  | withSettled
  deriving DecidableEq

/-- Embedding of `Mutex.with` (named `withCall` because `with` is a Lean
keyword).  The call first runs `this.lock()`; if that is pending the `.then`
continuation has not run yet, so the callback is not invoked and the result
promise is still pending.  If the lock is granted, the continuation runs
`const ret = cb()`:
* if `cb` throws synchronously the continuation aborts before reaching any
  `this.unlock()`, and the exception rejects the promise `with` returns;
* if `ret` is not a promise, the `instanceof` test fails and `this.unlock()`
  runs synchronously, after which `with`'s promise resolves;
* if `ret` is a promise that resolves, `ret.then(() => { this.unlock(); })`
  runs `this.unlock()` in a later microtask and then resolves `with`'s
  promise;
* if `ret` is a promise that rejects, the fulfillment handler given to
  `ret.then` is skipped, so `this.unlock()` never runs and the rejection
  propagates to `with`'s promise.
The result is the final mutex state, how `with`'s promise settled, and the
ordered event trace. -/
def Mutex.withCall (m : Mutex) (caller : Nat) (cb : CbBehavior) :
    Mutex × Option Settle × List WEv :=
  match m.lock caller with
  | (m1, .pending) => (m1, none, [])
  | (m1, .granted) =>
    match cb with
    | .throwEx e =>
        (m1, some (.err e), [.lockAcq, .cbCall, .cbSettled, .withSettled])
    | .retValue =>
        (m1.unlock.1, some .ok,
          [.lockAcq, .cbCall, .cbSettled, .unlockCall, .withSettled])
    | .retPromise none =>
        (m1.unlock.1, some .ok,
          [.lockAcq, .cbCall, .cbSettled, .microtask, .unlockCall, .withSettled])
    | .retPromise (some e) =>
        (m1, some (.err e), [.lockAcq, .cbCall, .cbSettled, .withSettled])

/-!
Trace semantics for interleaved `lock` / `unlock` calls.  `Sys` augments the
mutex state with ghost bookkeeping: `holding` lists the callers that have
been granted the lock and have not yet released it, and `grants` records the
order in which lock handles completed.
-/

/-- A mutex together with ghost state: `holding` is the list of callers
granted but not yet released, `grants` the chronological list of completed
lock handles. -/
structure Sys where
  m : Mutex
  holding : List Nat
  grants : List Nat
  deriving DecidableEq

/-- An event: caller `i` invokes `lock()`, or the current holder invokes
`unlock()`. -/
inductive Ev where
  | acquire (i : Nat)
  | release
  deriving DecidableEq

/-- One step of the system.  An `acquire` that is granted records the caller
as holding and its handle as completed; a pending `acquire` only queues.  A
`release` drops the releasing holder; if `unlock` pops a waiter `w`, that
waiter's handle completes and `w` becomes the holder. -/
def step (s : Sys) (e : Ev) : Sys :=
  match e with
  | .acquire i =>
    match s.m.lock i with
    | (m1, .granted) => ⟨m1, s.holding ++ [i], s.grants ++ [i]⟩
    | (m1, .pending) => ⟨m1, s.holding, s.grants⟩
  | .release =>
    match s.m.unlock with
    | (m1, some w) => ⟨m1, s.holding.drop 1 ++ [w], s.grants ++ [w]⟩
    | (m1, none) => ⟨m1, s.holding.drop 1, s.grants⟩

/-- Run a list of events from a state. -/
def run (s : Sys) (es : List Ev) : Sys := es.foldl step s

/-- The initial system: a fresh mutex, nobody holding, no grants. -/
def Sys.fresh : Sys := ⟨Mutex.fresh, [], []⟩

/-- Number of `release` events in a list. -/
def releasesIn (es : List Ev) : Nat :=
  es.countP fun e => match e with | .release => true | _ => false

/-- Mutual-exclusion invariant: at most one caller holds the lock, and when
the `locked` flag is clear nobody holds it and nobody is queued. -/
def SysInv (s : Sys) : Prop :=
  s.holding.length ≤ 1 ∧ (s.m.locked = false → s.holding = [] ∧ s.m.queue = [])

lemma step_inv (s : Sys) (e : Ev) (h : SysInv s) : SysInv (step s e) := by
  obtain ⟨h1, h2⟩ := h
  cases e with
  | acquire i =>
    by_cases hl : s.m.locked
    · simp only [step, Mutex.lock, hl, if_true]
      exact ⟨h1, by simp [hl]⟩
    · simp only [Bool.not_eq_true] at hl
      simp only [step, Mutex.lock, hl, Bool.false_eq_true, if_false]
      obtain ⟨hh, hq⟩ := h2 hl
      exact ⟨by simp [hh], by simp⟩
  | release =>
    have hd : (List.drop 1 s.holding).length = s.holding.length - 1 :=
      List.length_drop 1 s.holding
    rcases hq : s.m.queue with _ | ⟨w, rest⟩
    · simp only [step, Mutex.unlock, hq]
      refine ⟨le_trans (le_of_eq hd) (by omega), fun _ => ⟨?_, rfl⟩⟩
      have hz : s.holding.length - 1 = 0 := by omega
      exact List.eq_nil_of_length_eq_zero (hd.trans hz)
    · have hl : s.m.locked = true := by
        by_contra hc
        simp only [Bool.not_eq_true] at hc
        exact absurd hq (by simp [(h2 hc).2])
      simp only [step, Mutex.unlock, hq]
      have hlen : (List.drop 1 s.holding ++ [w]).length = s.holding.length - 1 + 1 := by
        simp [hd]
      refine ⟨le_trans (le_of_eq hlen) (by omega), fun hc => ?_⟩
      rw [hl] at hc
      exact absurd hc (by decide)

lemma run_inv (s : Sys) (es : List Ev) (h : SysInv s) : SysInv (run s es) := by
  induction es generalizing s with
  | nil => exact h
  | cons e es ih => exact ih (step s e) (step_inv s e h)

lemma fresh_inv : SysInv Sys.fresh := by
  constructor <;> simp [Sys.fresh, Mutex.fresh]

/-- Grant accounting: the number of completed lock handles never exceeds the
number of `unlock` calls plus one (plus zero while the lock is free). -/
def GrantBound (s : Sys) (r : Nat) : Prop :=
  if s.m.locked then s.grants.length ≤ r + 1 else s.grants.length ≤ r

lemma step_grant_bound (s : Sys) (e : Ev) (r : Nat) (h : GrantBound s r) :
    GrantBound (step s e) (r + releasesIn [e]) := by
  cases e with
  | acquire i =>
    have hre : releasesIn [Ev.acquire i] = 0 := by simp [releasesIn]
    rw [hre]
    by_cases hl : s.m.locked
    · simp only [step, Mutex.lock, hl, if_true]
      simpa [GrantBound, hl] using h
    · simp only [Bool.not_eq_true] at hl
      simp only [GrantBound, hl, Bool.false_eq_true, if_false] at h
      simp only [step, Mutex.lock, hl, Bool.false_eq_true, if_false]
      simp only [GrantBound, if_true, List.length_append, List.length_singleton]
      omega
  | release =>
    have hre : releasesIn [Ev.release] = 1 := by simp [releasesIn]
    rw [hre]
    rcases hq : s.m.queue with _ | ⟨w, rest⟩
    · simp only [step, Mutex.unlock, hq]
      simp only [GrantBound, Bool.false_eq_true, if_false]
      simp only [GrantBound] at h
      split at h <;> omega
    · simp only [step, Mutex.unlock, hq]
      simp only [GrantBound, List.length_append, List.length_singleton] at h ⊢
      split at h <;> split <;> omega

lemma run_grant_bound (es : List Ev) (s : Sys) (r : Nat) (h : GrantBound s r) :
    GrantBound (run s es) (r + releasesIn es) := by
  induction es generalizing s r with
  | nil => simpa [releasesIn] using h
  | cons e es ih =>
    have h1 := step_grant_bound s e r h
    have h2 := ih (step s e) (r + releasesIn [e]) h1
    have : r + releasesIn [e] + releasesIn es = r + releasesIn (e :: es) := by
      simp only [releasesIn, List.countP_cons, List.countP_nil]
      cases e <;> simp
      all_goals omega
    rw [this] at h2
    exact h2

lemma fresh_grant_bound : GrantBound Sys.fresh 0 := by
  simp [GrantBound, Sys.fresh, Mutex.fresh]

/-- While the lock is held, a stretch of events containing no `release`
completes no lock handle: every `acquire` in it just queues. -/
lemma run_no_release (es : List Ev) (s : Sys) (hl : s.m.locked = true)
    (hnr : ∀ e ∈ es, e ≠ Ev.release) :
    (run s es).grants = s.grants ∧ (run s es).m.locked = true := by
  induction es generalizing s with
  | nil => exact ⟨rfl, hl⟩
  | cons e es ih =>
    rcases e with i | _
    · have hstep : step s (Ev.acquire i) =
          ⟨{ s.m with queue := s.m.queue ++ [i] }, s.holding, s.grants⟩ := by
        simp [step, Mutex.lock, hl]
      have := ih ⟨{ s.m with queue := s.m.queue ++ [i] }, s.holding, s.grants⟩
        (by simpa using hl) (fun e he => hnr e (List.mem_cons_of_mem _ he))
      simpa [run, hstep] using this
    · exact absurd rfl (hnr Ev.release (List.mem_cons_self _ _))

/-- C1 counterexample: for the action that throws synchronously (error `7`)
run under `with` on a fresh (free) mutex, the failure does propagate, but the
lock is NOT free afterwards: `locked` is still `true`, contradicting the
claim that the lock is released before the failure propagates. -/
theorem withCall_throw_keeps_lock_cex :
    (Mutex.fresh.withCall 0 (CbBehavior.throwEx 7)).2.1 = some (Settle.err 7) ∧
    ¬ (Mutex.fresh.withCall 0 (CbBehavior.throwEx 7)).1.locked = false := by
  decide

/-- C1 (amended): when the action given to `with` fails — by throwing
synchronously or by returning a promise that rejects — the failure
propagates to `with`'s caller unswallowed, but the lock is NOT released:
`unlock` is never reached and the `locked` flag remains `true`, with the
waiter queue untouched. -/
theorem withCall_failure_propagates_keeps_lock (m : Mutex) (c e : Nat)
    (hm : m.locked = false) :
    (m.withCall c (CbBehavior.throwEx e)).2.1 = some (Settle.err e) ∧
    (m.withCall c (CbBehavior.throwEx e)).1.locked = true ∧
    (m.withCall c (CbBehavior.throwEx e)).1.queue = m.queue ∧
    (m.withCall c (CbBehavior.retPromise (some e))).2.1 = some (Settle.err e) ∧
    (m.withCall c (CbBehavior.retPromise (some e))).1.locked = true ∧
    (m.withCall c (CbBehavior.retPromise (some e))).1.queue = m.queue := by
  simp [Mutex.withCall, Mutex.lock, hm]

/-- Witness for the amended C1 at the fresh mutex, caller `0`, error `7`. -/
theorem withCall_failure_propagates_keeps_lock_witness :
    (Mutex.fresh.withCall 0 (CbBehavior.throwEx 7)).2.1 = some (Settle.err 7) ∧
    (Mutex.fresh.withCall 0 (CbBehavior.throwEx 7)).1.locked = true ∧
    (Mutex.fresh.withCall 0 (CbBehavior.throwEx 7)).1.queue = Mutex.fresh.queue ∧
    (Mutex.fresh.withCall 0 (CbBehavior.retPromise (some 7))).2.1 = some (Settle.err 7) ∧
    (Mutex.fresh.withCall 0 (CbBehavior.retPromise (some 7))).1.locked = true ∧
    (Mutex.fresh.withCall 0 (CbBehavior.retPromise (some 7))).1.queue = Mutex.fresh.queue :=
  withCall_failure_propagates_keeps_lock Mutex.fresh 0 7 rfl

/-- C9: calling `unlock` on a free lock with an empty queue is a no-op: the
state is unchanged and no waiter's handle is completed. -/
theorem unlock_free_noop (m : Mutex) (hl : m.locked = false) (hq : m.queue = []) :
    m.unlock = (m, none) := by
  cases m with
  | mk locked queue =>
    simp only at hl hq
    subst hl
    subst hq
    rfl

/-- Witness for C9 at the fresh mutex. -/
theorem unlock_free_noop_witness : Mutex.fresh.unlock = (Mutex.fresh, none) :=
  unlock_free_noop Mutex.fresh rfl rfl

/-- C7: `lock` cannot fail: its only outcomes are an immediately completed
handle (`granted`) or a suspended one (`pending`) — the embedding is a total
function with no error outcome — and it is granted immediately exactly when
the lock is free. -/
theorem lock_never_fails (m : Mutex) (i : Nat) :
    ((m.lock i).2 = LockResult.granted ∨ (m.lock i).2 = LockResult.pending) ∧
    ((m.lock i).2 = LockResult.granted ↔ m.locked = false) := by
  by_cases h : m.locked <;> simp [Mutex.lock, h]

/-- C5: `unlock` on a non-empty queue pops exactly the earliest-queued
waiter (the queue head), completes that waiter's handle, and never touches
the `locked` flag (in particular a held lock stays held, it is never set
free in between); `unlock` on an empty queue marks the lock free. -/
theorem unlock_pops_head_or_frees (m : Mutex) (w : Nat) (rest : List Nat) :
    (m.queue = w :: rest →
       m.unlock = ({ m with queue := rest }, some w) ∧
       m.unlock.1.locked = m.locked ∧
       (m.locked = true → m.unlock.1.locked = true)) ∧
    (m.queue = [] → m.unlock = ({ m with locked := false }, none)) := by
  constructor
  · intro hq
    refine ⟨by simp [Mutex.unlock, hq], by simp [Mutex.unlock, hq], fun hl => by simp [Mutex.unlock, hq, hl]⟩
  · intro hq
    simp [Mutex.unlock, hq]

/-- Witness for C5: a held mutex with queue `[3, 4]` pops waiter `3` and
stays locked; the fresh mutex's `unlock` marks it free. -/
theorem unlock_pops_head_or_frees_witness :
    (Mutex.mk true [3, 4]).unlock = (Mutex.mk true [4], some 3) ∧
    (Mutex.mk true [3, 4]).unlock.1.locked = (Mutex.mk true [3, 4]).locked ∧
    (Mutex.mk true [3, 4]).unlock.1.locked = true ∧
    Mutex.fresh.unlock = ({ Mutex.fresh with locked := false }, none) := by
  have h1 := (unlock_pops_head_or_frees (Mutex.mk true [3, 4]) 3 [4]).1 rfl
  have h2 := (unlock_pops_head_or_frees Mutex.fresh 3 [4]).2 rfl
  exact ⟨h1.1, h1.2.1, h1.2.2 rfl, h2⟩

/-- C4: `lock` on a free lock completes immediately (`granted`) and marks
the lock held, leaving the queue alone; `lock` on a held lock appends the
caller to the END of the waiter queue and returns a pending handle, which
completes no grant at the time of the call and stays uncompleted through
any stretch of further events containing no `release`. -/
theorem lock_grant_or_enqueue (m : Mutex) (i : Nat) (s : Sys) :
    (m.locked = false →
       m.lock i = ({ m with locked := true }, LockResult.granted)) ∧
    (m.locked = true →
       m.lock i = ({ m with queue := m.queue ++ [i] }, LockResult.pending)) ∧
    (s.m.locked = true →
       (step s (Ev.acquire i)).grants = s.grants ∧
       (step s (Ev.acquire i)).m.queue = s.m.queue ++ [i] ∧
       ∀ es, (∀ e ∈ es, e ≠ Ev.release) →
         (run (step s (Ev.acquire i)) es).grants = s.grants) := by
  refine ⟨fun hf => by simp [Mutex.lock, hf], fun hl => by simp [Mutex.lock, hl], fun hl => ?_⟩
  have hstep : step s (Ev.acquire i) =
      ⟨{ s.m with queue := s.m.queue ++ [i] }, s.holding, s.grants⟩ := by
    simp [step, Mutex.lock, hl]
  refine ⟨by rw [hstep], by rw [hstep], fun es hnr => ?_⟩
  have := run_no_release es (step s (Ev.acquire i)) (by rw [hstep]; simpa using hl) hnr
  rw [this.1, hstep]

/-- Witness for C4: grant on the fresh mutex; enqueue-at-end on a held
mutex with queue `[2]`; and on a held system a pending acquire completes no
grant, at the call or across a release-free stretch of further events. -/
theorem lock_grant_or_enqueue_witness :
    Mutex.fresh.lock 5 = ({ Mutex.fresh with locked := true }, LockResult.granted) ∧
    (Mutex.mk true [2]).lock 5 =
      ({ Mutex.mk true [2] with queue := (Mutex.mk true [2]).queue ++ [5] },
        LockResult.pending) ∧
    (step (Sys.mk (Mutex.mk true []) [0] [0]) (Ev.acquire 5)).grants =
      (Sys.mk (Mutex.mk true []) [0] [0]).grants ∧
    (run (step (Sys.mk (Mutex.mk true []) [0] [0]) (Ev.acquire 5)) [Ev.acquire 9]).grants =
      (Sys.mk (Mutex.mk true []) [0] [0]).grants :=
  ⟨(lock_grant_or_enqueue Mutex.fresh 5 Sys.fresh).1 rfl,
   (lock_grant_or_enqueue (Mutex.mk true [2]) 5 Sys.fresh).2.1 rfl,
   ((lock_grant_or_enqueue (Mutex.mk true []) 5 (Sys.mk (Mutex.mk true []) [0] [0])).2.2 rfl).1,
   ((lock_grant_or_enqueue (Mutex.mk true []) 5 (Sys.mk (Mutex.mk true []) [0] [0])).2.2 rfl).2.2
     [Ev.acquire 9] (by decide)⟩

/-- C2: along every event sequence from a fresh mutex, at most one caller
holds the lock at any instant; a `lock` call completes immediately only when
nobody holds it; and the number of completed lock handles never exceeds the
number of `unlock` calls plus one, so the N-th grant cannot precede the
(N-1)-th holder's release. -/
theorem mutex_mutual_exclusion (es : List Ev) (i : Nat) :
    (run Sys.fresh es).holding.length ≤ 1 ∧
    (((run Sys.fresh es).m.lock i).2 = LockResult.granted →
       (run Sys.fresh es).holding = []) ∧
    (run Sys.fresh es).grants.length ≤ releasesIn es + 1 := by
  obtain ⟨h1, h2⟩ := run_inv Sys.fresh es fresh_inv
  have hgb := run_grant_bound es Sys.fresh 0 fresh_grant_bound
  refine ⟨h1, fun hg => ?_, ?_⟩
  · have hfree : (run Sys.fresh es).m.locked = false := by
      by_contra hc
      simp only [Bool.not_eq_false] at hc
      simp [Mutex.lock, hc] at hg
    exact (h2 hfree).1
  · simp only [GrantBound, Nat.zero_add] at hgb
    split at hgb
    · exact hgb
    · omega

/-- Witness for C2 after the concrete run `acquire 0; acquire 1; release`:
at most one holder, the grant-immediately test discharged concretely, and
the grant count bounded by releases plus one. -/
theorem mutex_mutual_exclusion_witness :
    (run Sys.fresh [Ev.acquire 0, Ev.acquire 1, Ev.release, Ev.release]).holding.length ≤ 1 ∧
    (run Sys.fresh [Ev.acquire 0, Ev.acquire 1, Ev.release, Ev.release]).holding = [] ∧
    (run Sys.fresh [Ev.acquire 0, Ev.acquire 1, Ev.release, Ev.release]).grants.length ≤
      releasesIn [Ev.acquire 0, Ev.acquire 1, Ev.release, Ev.release] + 1 :=
  ⟨(mutex_mutual_exclusion [Ev.acquire 0, Ev.acquire 1, Ev.release, Ev.release] 2).1,
   (mutex_mutual_exclusion [Ev.acquire 0, Ev.acquire 1, Ev.release, Ev.release] 2).2.1
     (by decide),
   (mutex_mutual_exclusion [Ev.acquire 0, Ev.acquire 1, Ev.release, Ev.release] 2).2.2⟩

/-- C3: from any state where the lock is held and no one is queued, if
callers `A`, `B`, `C` call `lock` in that order (all queued), the next three
`unlock` calls complete their handles in exactly that arrival order:
`A`, then `B`, then `C`. -/
theorem unlock_grants_in_fifo_order (s : Sys) (A B C : Nat)
    (hl : s.m.locked = true) (hq : s.m.queue = []) :
    (run s [Ev.acquire A, Ev.acquire B, Ev.acquire C,
            Ev.release, Ev.release, Ev.release]).grants = s.grants ++ [A, B, C] := by
  simp [run, step, Mutex.lock, Mutex.unlock, hl, hq]

/-- Witness for C3: after caller `9` takes the fresh lock, callers `1`, `2`,
`3` queue up and are granted in that order by three releases. -/
theorem unlock_grants_in_fifo_order_witness :
    (run (run Sys.fresh [Ev.acquire 9])
         [Ev.acquire 1, Ev.acquire 2, Ev.acquire 3,
          Ev.release, Ev.release, Ev.release]).grants =
      (run Sys.fresh [Ev.acquire 9]).grants ++ [1, 2, 3] :=
  unlock_grants_in_fifo_order (run Sys.fresh [Ev.acquire 9]) 1 2 3 (by decide) (by decide)

/-- C6: for an action that completes normally (a non-promise return or a
resolving promise) run by `with` on a free lock, the lock is acquired
first, the action is invoked exactly once, `unlock` runs after the action
settles and before `with`'s own handle completes (the trace is exactly one
of the two success traces, each ordering `lockAcq`, then `cbCall`, then
`cbSettled`, then `unlockCall`, then `withSettled`), and the final state is
the acquired state released once. -/
theorem withCall_release_after_settle (m : Mutex) (c : Nat) (cb : CbBehavior)
    (hm : m.locked = false)
    (hcb : cb = CbBehavior.retValue ∨ cb = CbBehavior.retPromise none) :
    (m.withCall c cb).2.1 = some Settle.ok ∧
    (m.withCall c cb).1 = ((m.lock c).1.unlock).1 ∧
    (m.withCall c cb).2.2.count WEv.cbCall = 1 ∧
    ((m.withCall c cb).2.2 =
       [WEv.lockAcq, WEv.cbCall, WEv.cbSettled, WEv.unlockCall, WEv.withSettled] ∨
     (m.withCall c cb).2.2 =
       [WEv.lockAcq, WEv.cbCall, WEv.cbSettled, WEv.microtask, WEv.unlockCall,
        WEv.withSettled]) := by
  rcases hcb with h | h <;> subst h <;>
    simp [Mutex.withCall, Mutex.lock, hm, List.count_cons, List.count_nil]

/-- Witness for C6 at the fresh mutex with a non-promise-returning action. -/
theorem withCall_release_after_settle_witness :
    (Mutex.fresh.withCall 0 CbBehavior.retValue).2.1 = some Settle.ok ∧
    (Mutex.fresh.withCall 0 CbBehavior.retValue).1 =
      ((Mutex.fresh.lock 0).1.unlock).1 ∧
    (Mutex.fresh.withCall 0 CbBehavior.retValue).2.2.count WEv.cbCall = 1 ∧
    ((Mutex.fresh.withCall 0 CbBehavior.retValue).2.2 =
       [WEv.lockAcq, WEv.cbCall, WEv.cbSettled, WEv.unlockCall, WEv.withSettled] ∨
     (Mutex.fresh.withCall 0 CbBehavior.retValue).2.2 =
       [WEv.lockAcq, WEv.cbCall, WEv.cbSettled, WEv.microtask, WEv.unlockCall,
        WEv.withSettled]) :=
  withCall_release_after_settle Mutex.fresh 0 CbBehavior.retValue rfl (Or.inl rfl)

/-- C8: a re-entrant `lock` by the sole current holder returns a pending
handle, and across any further events containing no `release` not a single
handle completes — in particular the re-entrant handle never does: without
an intervening release the caller is deadlocked. -/
theorem reentrant_lock_deadlocks (s : Sys) (i : Nat) (es : List Ev)
    (hinv : SysInv s) (hhold : s.holding = [i])
    (hnr : ∀ e ∈ es, e ≠ Ev.release) :
    (s.m.lock i).2 = LockResult.pending ∧
    (run (step s (Ev.acquire i)) es).grants = s.grants := by
  have hl : s.m.locked = true := by
    by_contra hc
    simp only [Bool.not_eq_true] at hc
    have := (hinv.2 hc).1
    rw [hhold] at this
    exact absurd this (by simp)
  constructor
  · simp [Mutex.lock, hl]
  · have hstep : step s (Ev.acquire i) =
        ⟨{ s.m with queue := s.m.queue ++ [i] }, s.holding, s.grants⟩ := by
      simp [step, Mutex.lock, hl]
    have := run_no_release es (step s (Ev.acquire i))
      (by rw [hstep]; simpa using hl) hnr
    rw [this.1, hstep]

/-- Witness for C8: caller `4` holds the fresh lock, re-acquires, and across
the release-free stretch `acquire 6` no handle completes. -/
theorem reentrant_lock_deadlocks_witness :
    ((run Sys.fresh [Ev.acquire 4]).m.lock 4).2 = LockResult.pending ∧
    (run (step (run Sys.fresh [Ev.acquire 4]) (Ev.acquire 4)) [Ev.acquire 6]).grants =
      (run Sys.fresh [Ev.acquire 4]).grants :=
  reentrant_lock_deadlocks (run Sys.fresh [Ev.acquire 4]) 4 [Ev.acquire 6]
    (run_inv Sys.fresh [Ev.acquire 4] fresh_inv) (by decide) (by decide)

/-- C10: an action that returns a non-promise value still releases the
lock, synchronously and immediately after the action returns: the trace
puts `unlockCall` directly after `cbSettled` with no microtask boundary,
`with`'s handle resolves, and the lock ends up free. -/
theorem withCall_nonpromise_sync_unlock (m : Mutex) (c : Nat)
    (hm : m.locked = false) (hq : m.queue = []) :
    (m.withCall c CbBehavior.retValue).1.locked = false ∧
    (m.withCall c CbBehavior.retValue).2.1 = some Settle.ok ∧
    (m.withCall c CbBehavior.retValue).2.2 =
      [WEv.lockAcq, WEv.cbCall, WEv.cbSettled, WEv.unlockCall, WEv.withSettled] := by
  simp [Mutex.withCall, Mutex.lock, Mutex.unlock, hm, hq]

/-- Witness for C10 at the fresh mutex. -/
theorem withCall_nonpromise_sync_unlock_witness :
    (Mutex.fresh.withCall 1 CbBehavior.retValue).1.locked = false ∧
    (Mutex.fresh.withCall 1 CbBehavior.retValue).2.1 = some Settle.ok ∧
    (Mutex.fresh.withCall 1 CbBehavior.retValue).2.2 =
      [WEv.lockAcq, WEv.cbCall, WEv.cbSettled, WEv.unlockCall, WEv.withSettled] :=
  withCall_nonpromise_sync_unlock Mutex.fresh 1 rfl rfl
